import Mathlib

/-!
Verification of the viewport transform-and-gesture engine of the
`connecting_the_dots` PDF viewer.

The definitions below are shallow embeddings of the JavaScript source:

* `clamp`              — `src/components/viewer/utils/geometry.js`
* `ZoomOp`/`applyZoomOp` — the zoom mutations of
  `src/components/viewer/hooks/useZoomInteractions.js` (ctrl-wheel, touch
  pinch, Safari gesture) and `src/components/viewer/CenterViewer.jsx`
  (toolbar `zoomIn`/`zoomOut`/`resetZoom`)
* `JVal`/`clientToRelAxis` — the IEEE-style value domain (finite rational,
  infinities, NaN) needed to embed `clientToRel` of
  `src/components/viewer/PDFPage.jsx` faithfully, including its `||`
  fallbacks and division-by-zero behaviour
* `pickCurrentPage`    — the IntersectionObserver callback of
  `CenterViewer.jsx` that selects the current page
* `gotoPage`/`scrollToPage` — the page-navigation API of `CenterViewer.jsx`
* `legalize`/`inertiaStep`/`momentumLoop` — the pan clamp (`clampPan`) and
  the inertial momentum loop of the `PinchZoom` component
-/

/-- `clamp` from `geometry.js`: `(v, lo, hi) => Math.max(lo, Math.min(hi, v))`. -/
def clamp {A : Type} [LinearOrder A] (v lo hi : A) : A :=
  max lo (min hi v)

/-- JavaScript `Math.round` on an exact rational: round half toward positive
infinity, i.e. `Math.round(x) = floor(x + 0.5)`. -/
def jsRound (q : ℚ) : ℤ :=
  Int.floor (q + 1 / 2)

/-- `opts.min ?? 0.25` of `useZoomInteractions` (the hook's default minimum
scale); `CenterViewer.jsx` calls the hook with no `opts`, i.e. with `none`. -/
def useZoomMin (optMin : Option ℚ) : ℚ :=
  optMin.getD (1 / 4)

/-- `opts.max ?? 4` of `useZoomInteractions` (the hook's default maximum
scale); `CenterViewer.jsx` calls the hook with no `opts`, i.e. with `none`. -/
def useZoomMax (optMax : Option ℚ) : ℚ :=
  optMax.getD 4

/-- One zoom operation of the viewer.  The three gesture variants carry the
multiplicative factor the handler computed before calling `setZoom`
(`Math.exp(delta * sensitivity)` for the wheel, `d / pinch.last` for the touch
pinch, `e.scale / lastScale` for the Safari gesture). -/
inductive ZoomOp where
  | wheel (factor : ℚ)
  | touchPinch (factor : ℚ)
  | safariGesture (factor : ℚ)
  | toolbarIn
  | toolbarOut
  | reset
deriving DecidableEq

/-- The `setZoom` updater each operation applies to the current scale `z`:
the three gesture handlers run `clamp(z * scale, min, max)` with the hook's
(default) bounds, the toolbar buttons run
`clamp(Math.round((z ± 0.1) * 10) / 10, 0.25, 4)`, and `resetZoom` sets 1. -/
def applyZoomOp (z : ℚ) : ZoomOp → ℚ
  | ZoomOp.wheel f => clamp (z * f) (useZoomMin none) (useZoomMax none)
  | ZoomOp.touchPinch f => clamp (z * f) (useZoomMin none) (useZoomMax none)
  | ZoomOp.safariGesture f => clamp (z * f) (useZoomMin none) (useZoomMax none)
  | ZoomOp.toolbarIn => clamp ((jsRound ((z + 1 / 10) * 10) : ℚ) / 10) (1 / 4) 4
  | ZoomOp.toolbarOut => clamp ((jsRound ((z - 1 / 10) * 10) : ℚ) / 10) (1 / 4) 4
  | ZoomOp.reset => 1

/-- A JavaScript number as far as `clientToRel` can observe it: a finite value
(modelled exactly as a rational), one of the two infinities, or `NaN`.
(Rationals have no signed zero; none of the embedded code paths distinguish
`-0` from `0`.) -/
inductive JVal where
  | nan : JVal
  | posInf : JVal
  | negInf : JVal
  | num : ℚ → JVal
deriving DecidableEq

/-- JavaScript truthiness of a number: `NaN` and `0` are falsy, every other
number (including the infinities) is truthy. -/
def JVal.truthy : JVal → Bool
  | JVal.nan => false
  | JVal.num q => if q = 0 then false else true
  | _ => true

/-- JavaScript `a || b` on numbers: `b` when `a` is falsy, else `a`. -/
def JVal.orElse (a b : JVal) : JVal :=
  if a.truthy then a else b

/-- IEEE subtraction on the observable values. -/
def JVal.sub : JVal → JVal → JVal
  | JVal.nan, _ => JVal.nan
  | _, JVal.nan => JVal.nan
  | JVal.posInf, JVal.posInf => JVal.nan
  | JVal.posInf, _ => JVal.posInf
  | JVal.negInf, JVal.negInf => JVal.nan
  | JVal.negInf, _ => JVal.negInf
  | JVal.num _, JVal.posInf => JVal.negInf
  | JVal.num _, JVal.negInf => JVal.posInf
  | JVal.num a, JVal.num b => JVal.num (a - b)

/-- IEEE division on the observable values: a nonzero finite value divided by
zero gives a signed infinity, `0 / 0` gives `NaN`. -/
def JVal.div : JVal → JVal → JVal
  | JVal.nan, _ => JVal.nan
  | _, JVal.nan => JVal.nan
  | JVal.posInf, JVal.posInf => JVal.nan
  | JVal.posInf, JVal.negInf => JVal.nan
  | JVal.negInf, JVal.posInf => JVal.nan
  | JVal.negInf, JVal.negInf => JVal.nan
  | JVal.posInf, JVal.num b => if b < 0 then JVal.negInf else JVal.posInf
  | JVal.negInf, JVal.num b => if b < 0 then JVal.posInf else JVal.negInf
  | JVal.num _, JVal.posInf => JVal.num 0
  | JVal.num _, JVal.negInf => JVal.num 0
  | JVal.num a, JVal.num b =>
      if b = 0 then
        if a = 0 then JVal.nan else if 0 < a then JVal.posInf else JVal.negInf
      else JVal.num (a / b)

/-- `Math.min` on the observable values: `NaN` is absorbing. -/
def JVal.jmin : JVal → JVal → JVal
  | JVal.nan, _ => JVal.nan
  | _, JVal.nan => JVal.nan
  | JVal.negInf, _ => JVal.negInf
  | _, JVal.negInf => JVal.negInf
  | JVal.posInf, b => b
  | a, JVal.posInf => a
  | JVal.num a, JVal.num b => JVal.num (min a b)

/-- `Math.max` on the observable values: `NaN` is absorbing. -/
def JVal.jmax : JVal → JVal → JVal
  | JVal.nan, _ => JVal.nan
  | _, JVal.nan => JVal.nan
  | JVal.posInf, _ => JVal.posInf
  | _, JVal.posInf => JVal.posInf
  | JVal.negInf, b => b
  | a, JVal.negInf => a
  | JVal.num a, JVal.num b => JVal.num (max a b)

/-- `clamp` of `geometry.js` evaluated under IEEE semantics, as it is when
`clientToRel` calls it: `Math.max(lo, Math.min(hi, v))`. -/
def JVal.jclamp (v lo hi : JVal) : JVal :=
  JVal.jmax lo (JVal.jmin hi v)

/-- One axis of `clientToRel` from `PDFPage.jsx`:

```js
const unscaledW = el.clientWidth || r.width;
const scaleX = r.width / unscaledW || 1;
const xInBounds = e.clientX - r.left;
const xUnscaled = xInBounds / scaleX;
return clamp(xUnscaled / unscaledW, 0, 1);
```

`client` is `e.clientX`, `origin` is `r.left`, `size` is `r.width` (the
transformed bounding-rect extent) and `clientSize` is `el.clientWidth` (the
untransformed layout extent).  All four inputs are finite numbers; every
intermediate is tracked as a `JVal`. -/
def clientToRelAxis (client origin size clientSize : ℚ) : JVal :=
  let unscaled := JVal.orElse (JVal.num clientSize) (JVal.num size)
  let scaleFactor := JVal.orElse (JVal.div (JVal.num size) unscaled) (JVal.num 1)
  let inBounds := JVal.sub (JVal.num client) (JVal.num origin)
  let unscaledPos := JVal.div inBounds scaleFactor
  JVal.jclamp (JVal.div unscaledPos unscaled) (JVal.num 0) (JVal.num 1)

/-- The geometry of one rendered page's layer element: its transformed
bounding rect (`getBoundingClientRect`) and its untransformed layout size
(`clientWidth`/`clientHeight`). -/
structure PageRect where
  left : ℚ
  top : ℚ
  width : ℚ
  height : ℚ
  clientW : ℚ
  clientH : ℚ
deriving DecidableEq

/-- `clientToRel(e, el)` of `PDFPage.jsx`: both axes of the normalization. -/
def clientToRel (clientX clientY : ℚ) (r : PageRect) : JVal × JVal :=
  (clientToRelAxis clientX r.left r.width r.clientW,
   clientToRelAxis clientY r.top r.height r.clientH)

/-- Client-space position of a page-normalized point: `rerenderCanvas` in
`PDFPage.jsx` paints a stored point `p` at canvas pixel `(p.x * W, p.y * H)`;
since the canvas fills the page layer, that pixel sits at client coordinate
`(r.left + p.x * r.width, r.top + p.y * r.height)` of the layer's bounding
rect `r`.  This is the `fromNormalized` direction of the mapper contract. -/
def fromNormalized (px py : ℚ) (r : PageRect) : ℚ × ℚ :=
  (r.left + px * r.width, r.top + py * r.height)

/-- The externally visible actions of the `onWheel` handler of
`useZoomInteractions.js`, in the order the handler performs them. -/
inductive WheelEffect where
  | prevented : WheelEffect
  | zoomSet : ℚ → WheelEffect
deriving DecidableEq

/-- Effect trace of one `wheel` event through the `onWheel` handler of
`useZoomInteractions.js`.  `mathExp` stands for the host's `Math.exp`;
`ctrl` is `e.ctrlKey` (the cross-browser pinch-on-trackpad indicator).  The
handler returns immediately when `ctrl` is unset; otherwise it calls
`e.preventDefault()` first and only then computes and applies the new scale
`clamp(z * Math.exp(-deltaY * sensitivity), min, max)`. -/
def onWheelEffects (mathExp : ℚ → ℚ) (ctrl : Bool)
    (deltaY sens z lo hi : ℚ) : List WheelEffect :=
  if ctrl = false then []
  else
    [WheelEffect.prevented,
     WheelEffect.zoomSet (clamp (z * mathExp (-deltaY * sens)) lo hi)]

/-- The window-capture wheel blocker of `useBlockBrowserCtrlZoom`
(`onWheelCapture`): it calls `preventDefault` exactly when the event has
`ctrlKey` set and targets the viewer element. -/
def ctrlZoomBlockerPrevents (ctrl inViewer : Bool) : Bool :=
  ctrl && inViewer

/-- The `onWheel` zoom computation over the reals, keeping the exact
exponential: `ctrl` gates the handler, and the produced scale is
`clamp(z * Math.exp(-deltaY * sensitivity), lo, hi)` (`none` = the handler
returned without touching the zoom). -/
noncomputable def onWheelNewZoom (ctrl : Bool)
    (z deltaY sens lo hi : ℝ) : Option ℝ :=
  if ctrl = false then none
  else some (clamp (z * Real.exp (-deltaY * sens)) lo hi)

/-- One entry of an IntersectionObserver batch: the parsed
`e.target.dataset.page` (`none` when `Number(dataPage)` is not finite) and
the intersection fraction `e.intersectionRatio`. -/
structure PageObservation where
  page : Option ℤ
  frac : ℚ
deriving DecidableEq

/-- One iteration of the observer callback's loop in `CenterViewer.jsx`:
skip entries whose page is not finite, otherwise replace the best candidate
when the entry's fraction strictly exceeds the best fraction so far. -/
def pickStep (b : ℚ × ℤ) (e : PageObservation) : ℚ × ℤ :=
  match e.page with
  | none => b
  | some p => if e.frac > b.1 then (e.frac, p) else b

/-- The IntersectionObserver callback of `CenterViewer.jsx`: fold the batch
starting from `best = { ratio: 0, page: currPage }`, then report `best.page`
when it is truthy and differs from the current page (otherwise the reported
page stays `currPage`). -/
def pickCurrentPage (currPage : ℤ) (entries : List PageObservation) : ℤ :=
  let best := entries.foldl pickStep ((0 : ℚ), currPage)
  if best.2 ≠ 0 ∧ best.2 ≠ currPage then best.2 else currPage

/-- The navigation-relevant state of `CenterViewer`: the loaded page count
(`numPages`, `none` before the document loads), the reported current page,
and which pages currently have a live DOM handle in `pageRefs`. -/
structure ViewerState where
  numPages : Option ℕ
  currPage : ℤ
  refs : ℤ → Bool

/-- `numPages || 1`: the fallback page count used by `gotoPage`'s clamp. -/
def pageCountOr1 (n : Option ℕ) : ℤ :=
  match n with
  | none => 1
  | some k => if k = 0 then 1 else (k : ℤ)

/-- `parseInt(p, 10) || 1`: the parsed page argument, with `NaN` (`none`)
and `0` replaced by 1. -/
def parseIntOr1 (input : Option ℤ) : ℤ :=
  match input with
  | none => 1
  | some v => if v = 0 then 1 else v

/-- `scrollToPage(p)` of `CenterViewer.jsx`: look up the page's DOM handle;
when it is absent, return without doing anything; otherwise scroll it into
view and set the current page. -/
def scrollToPage (st : ViewerState) (p : ℤ) : ViewerState :=
  if st.refs p then { st with currPage := p } else st

/-- `gotoPage(p)` of the `CenterViewer.jsx` host API:
`scrollToPage(clamp(parseInt(p, 10) || 1, 1, numPages || 1))`. -/
def gotoPage (st : ViewerState) (input : Option ℤ) : ViewerState :=
  scrollToPage st (clamp (parseIntOr1 input) 1 (pageCountOr1 st.numPages))

/-- The sizes `clampPan` of the `PinchZoom` component reads: the gesture
surface (viewport) box `vw × vh` and the untransformed content base size
`bw × bh`. -/
structure PanGeom where
  vw : ℚ
  vh : ℚ
  bw : ℚ
  bh : ℚ
deriving DecidableEq

/-- `clampPan` of the `PinchZoom` component as a pure function: per axis,
the legal translate range is `[min(0, viewport - content * scale), 0]` and
the translate is clamped into it. -/
def legalize (t : ℚ × ℚ) (s : ℚ) (g : PanGeom) : ℚ × ℚ :=
  (clamp t.1 (min 0 (g.vw - g.bw * s)) 0,
   clamp t.2 (min 0 (g.vh - g.bh * s)) 0)

/-- The mutable state of the `PinchZoom` inertia loop: translate and
velocity (px/ms). -/
structure Inertia where
  tx : ℚ
  ty : ℚ
  vx : ℚ
  vy : ℚ
deriving DecidableEq

/-- One frame of the momentum `step` closure in `PinchZoom`: apply the
velocity over the frame delta `dt`, clamp the translate (`clampPan`), damp a
velocity component by 0.3 when its axis was clamped, then decay both
components by the friction factor 0.92. -/
def inertiaStep (g : PanGeom) (sc dt : ℚ) (st : Inertia) : Inertia :=
  let tx1 := st.tx + st.vx * dt
  let ty1 := st.ty + st.vy * dt
  let t2 := legalize (tx1, ty1) sc g
  let vx1 := if tx1 = t2.1 then st.vx else st.vx * (3 / 10)
  let vy1 := if ty1 = t2.2 then st.vy else st.vy * (3 / 10)
  { tx := t2.1, ty := t2.2, vx := vx1 * (92 / 100), vy := vy1 * (92 / 100) }

/-- The loop-continuation test of the momentum `step`:
`Math.hypot(vx, vy) > 0.005 && (now - startT) < maxMs`, with the speed
comparison stated on squares so it stays inside the rationals
(`hypot(vx,vy) > 0.005` iff `vx^2 + vy^2 > 0.005^2`). -/
def inertiaContinues (st : Inertia) (elapsed cap : ℚ) : Bool :=
  decide (st.vx ^ 2 + st.vy ^ 2 > (1 / 200 : ℚ) ^ 2) && decide (elapsed < cap)

/-- The momentum loop of `PinchZoom`, driven by an idealized frame clock that
fires every `dt` ms: run one `inertiaStep`, advance the elapsed time, and
either schedule the next frame (when `inertiaContinues`) or stop, returning
the elapsed time at which the session went back to idle
(`inertiaRaf.current = 0`).  `none` means the frame budget (`fuel`) ran out
before the loop stopped. -/
def momentumLoop (g : PanGeom) (sc dt cap : ℚ) :
    ℕ → ℚ → Inertia → Option ℚ
  | 0, _, _ => none
  | Nat.succ n, elapsed, st =>
      let st1 := inertiaStep g sc dt st
      let e1 := elapsed + dt
      if inertiaContinues st1 e1 cap then momentumLoop g sc dt cap n e1 st1
      else some e1

theorem clamp_self_le {A : Type} [LinearOrder A] (v lo hi : A) (h : lo ≤ hi) :
    lo ≤ clamp v lo hi ∧ clamp v lo hi ≤ hi := by
  constructor
  · exact le_max_left _ _
  · exact max_le h (min_le_left _ _)

theorem applyZoomOp_bounds (z : ℚ) (op : ZoomOp) :
    1 / 4 ≤ applyZoomOp z op ∧ applyZoomOp z op ≤ 4 := by
  cases op <;>
    simp only [applyZoomOp, useZoomMin, useZoomMax, Option.getD_none] <;>
    first
      | exact clamp_self_le _ _ _ (by norm_num)
      | constructor <;> norm_num

theorem clamp_idem {A : Type} [LinearOrder A] (v lo hi : A) :
    clamp (clamp v lo hi) lo hi = clamp v lo hi := by
  unfold clamp
  rcases le_total (min hi v) lo with h1 | h1
  · rw [max_eq_left h1]
    rcases le_total lo hi with h2 | h2
    · rw [min_eq_right h2, max_self]
    · rw [min_eq_left h2, max_eq_left h2]
  · rw [max_eq_right h1, min_eq_right (min_le_left hi v), max_eq_right h1]

/-- Claim C1: for every sequence of zoom operations (ctrl-wheel zoom,
two-finger touch pinch, Safari gesture pinch, toolbar zoom-in/zoom-out,
reset) starting from a scale inside `[minScale, maxScale] = [0.25, 4]`, the
zoom scale stays inside `[0.25, 4]` after every operation. -/
theorem zoom_scale_bounded (z0 : ℚ) (ops : List ZoomOp)
    (h0 : 1 / 4 ≤ z0 ∧ z0 ≤ 4) :
    ∀ z1 ∈ ops.scanl applyZoomOp z0, 1 / 4 ≤ z1 ∧ z1 ≤ 4 := by
  induction ops generalizing z0 with
  | nil =>
      intro z1 hz1
      simp only [List.scanl_nil, List.mem_singleton] at hz1
      exact hz1 ▸ h0
  | cons op rest ih =>
      intro z1 hz1
      rw [List.scanl_cons] at hz1
      rcases List.mem_cons.mp hz1 with h | h
      · exact h ▸ h0
      · exact ih (applyZoomOp z0 op) (applyZoomOp_bounds z0 op) z1 h

theorem zoom_scale_bounded_witness :
    1 / 4 ≤ applyZoomOp 1 (ZoomOp.wheel 10) ∧
      applyZoomOp 1 (ZoomOp.wheel 10) ≤ 4 :=
  zoom_scale_bounded 1 [ZoomOp.wheel 10, ZoomOp.toolbarIn, ZoomOp.reset]
    (by norm_num) (applyZoomOp 1 (ZoomOp.wheel 10)) (by
      simp [List.scanl])

/-- Claim C5, counterexample: the hook's unconfigured minimum scale is
`0.25`, not `1` as the claim states. -/
theorem useZoom_default_min_not_one :
    useZoomMin none = 1 / 4 ∧ (1 / 4 : ℚ) ≠ 1 := by
  constructor
  · rfl
  · norm_num

/-- Claim C5 (amended): when the host does not configure other values, the
scale clamp uses a default minimum of `0.25` and a default maximum of `4`
(which does lie between 4 and 5), and the requested scale of a zoom gesture
is clamped into `[minScale, maxScale]` before being applied. -/
theorem zoom_defaults_and_clamped :
    useZoomMin none = 1 / 4 ∧ useZoomMax none = 4 ∧
    (4 : ℚ) ≤ useZoomMax none ∧ useZoomMax none ≤ 5 ∧
    ∀ z f : ℚ, useZoomMin none ≤ applyZoomOp z (ZoomOp.wheel f) ∧
      applyZoomOp z (ZoomOp.wheel f) ≤ useZoomMax none := by
  refine ⟨rfl, rfl, by norm_num [useZoomMax], by norm_num [useZoomMax], ?_⟩
  intro z f
  simpa [useZoomMin, useZoomMax] using applyZoomOp_bounds z (ZoomOp.wheel f)

/-- Claim C8: the translate-legalization function is idempotent — the pure
per-axis `clamp` satisfies `clamp (clamp v lo hi) lo hi = clamp v lo hi`
for every value and bounds, hence `legalize (legalize t s g) s g =
legalize t s g` for every translate `t`, scale `s` and geometry `g`. -/
theorem legalize_idempotent :
    (∀ v lo hi : ℚ, clamp (clamp v lo hi) lo hi = clamp v lo hi) ∧
    ∀ (t : ℚ × ℚ) (s : ℚ) (g : PanGeom),
      legalize (legalize t s g) s g = legalize t s g := by
  refine ⟨fun v lo hi => clamp_idem v lo hi, fun t s g => ?_⟩
  simp [legalize, clamp_idem]

theorem exp_quarter_pow_four : Real.exp (1 / 4) ^ 4 = Real.exp 1 := by
  rw [← Real.exp_nat_mul]
  norm_num

theorem exp_quarter_gt : (128 / 100 : ℝ) < Real.exp (1 / 4) := by
  apply lt_of_pow_lt_pow_left₀ 4 (Real.exp_pos _).le
  rw [exp_quarter_pow_four]
  calc (128 / 100 : ℝ) ^ 4 < 2.7182818283 := by norm_num
    _ < Real.exp 1 := Real.exp_one_gt_d9

theorem exp_quarter_lt : Real.exp (1 / 4) < (129 / 100 : ℝ) := by
  apply lt_of_pow_lt_pow_left₀ 4 (by norm_num)
  rw [exp_quarter_pow_four]
  calc Real.exp 1 < 2.7182818286 := Real.exp_one_lt_d9
    _ < (129 / 100 : ℝ) ^ 4 := by norm_num

/-- Claim C4: a ctrl-accompanied wheel event multiplies the current scale by
`exp(-deltaY * sensitivity)` and then clamps; with `deltaY = -100`,
`sensitivity = 0.0025` and starting scale 1 the new scale is `exp(0.25)`
(which lies between 1.28 and 1.29, hence approximately 1.284), unchanged by
the clamp into `[0.25, 4]`. -/
theorem ctrl_wheel_exponential_zoom :
    (∀ z dy sens lo hi : ℝ, onWheelNewZoom true z dy sens lo hi =
      some (clamp (z * Real.exp (-dy * sens)) lo hi)) ∧
    onWheelNewZoom true 1 (-100) (1 / 400) (1 / 4) 4 =
      some (Real.exp (1 / 4)) ∧
    (128 / 100 : ℝ) < Real.exp (1 / 4) ∧
    Real.exp (1 / 4) < (129 / 100 : ℝ) := by
  refine ⟨fun z dy sens lo hi => rfl, ?_, exp_quarter_gt, exp_quarter_lt⟩
  unfold onWheelNewZoom
  rw [if_neg (by simp)]
  congr 1
  have harg : (-(-100 : ℝ)) * (1 / 400) = 1 / 4 := by norm_num
  rw [harg, one_mul]
  unfold clamp
  rw [min_eq_right (le_of_lt (lt_trans exp_quarter_lt (by norm_num)))]
  exact max_eq_right (le_of_lt (lt_trans (by norm_num) exp_quarter_gt))

/-- Claim C9: a wheel event with the ctrl signal that reaches the zoom
handler has `preventDefault` invoked before any zoom state change (it is the
first effect, and every `setZoom` effect is preceded by it), while a wheel
event without the signal produces no effects at all (left to the browser);
the window-level capture blocker likewise prevents exactly the ctrl events
over the viewer. -/
theorem ctrl_wheel_prevents_browser_zoom (mathExp : ℚ → ℚ)
    (dy sens z lo hi : ℚ) :
    onWheelEffects mathExp false dy sens z lo hi = [] ∧
    (onWheelEffects mathExp true dy sens z lo hi).head? =
      some WheelEffect.prevented ∧
    (∀ (i : ℕ) (z1 : ℚ),
      (onWheelEffects mathExp true dy sens z lo hi).get? i =
          some (WheelEffect.zoomSet z1) →
      ∃ j, j < i ∧ (onWheelEffects mathExp true dy sens z lo hi).get? j =
        some WheelEffect.prevented) ∧
    ctrlZoomBlockerPrevents false true = false ∧
    ctrlZoomBlockerPrevents true true = true := by
  refine ⟨rfl, rfl, ?_, rfl, rfl⟩
  intro i z1 h
  unfold onWheelEffects at h
  rw [if_neg (by simp)] at h
  match i with
  | 0 => simp at h
  | 1 => exact ⟨0, Nat.zero_lt_one, rfl⟩
  | Nat.succ (Nat.succ n) => simp [List.get?] at h

theorem ctrl_wheel_prevents_browser_zoom_witness :
    onWheelEffects (fun q => q) false 100 (1 / 400) 1 (1 / 4) 4 = [] ∧
    (onWheelEffects (fun q => q) true 100 (1 / 400) 1 (1 / 4) 4).head? =
      some WheelEffect.prevented :=
  ⟨(ctrl_wheel_prevents_browser_zoom (fun q => q) 100 (1 / 400) 1 (1 / 4) 4).1,
   (ctrl_wheel_prevents_browser_zoom (fun q => q) 100 (1 / 400) 1 (1 / 4) 4).2.1⟩

theorem one_le_pageCountOr1 (n : Option ℕ) : 1 ≤ pageCountOr1 n := by
  match n with
  | none => exact le_refl 1
  | some k =>
      show 1 ≤ (if k = 0 then 1 else (k : ℤ))
      by_cases hk : k = 0
      · rw [if_pos hk]
      · rw [if_neg hk]
        exact_mod_cast Nat.one_le_iff_ne_zero.mpr hk

/-- Claim C7, counterexample: with ten pages loaded but no live page
handles (`pageRefs` cleared, as happens right after a document switch),
`gotoPage(5)` clamps to 5 but leaves the current page at 1 instead of
reporting 5 — the call is a silent no-op. -/
theorem gotoPage_missing_ref_noop :
    (gotoPage ⟨some 10, 1, fun _ => false⟩ (some 5)).currPage = 1 ∧
    clamp (5 : ℤ) 1 10 = 5 ∧ (1 : ℤ) ≠ 5 := by
  refine ⟨rfl, by decide, by decide⟩

/-- Claim C7 (amended): for every `pageNumber` argument (including values
below 1, above the page count, and unparseable input) `gotoPage` computes
the target clamped into `[1, pageCount]` and never surfaces an error; when
the target page's on-screen handle exists the clamped page is immediately
reported as the current page, and when the handle is absent the call is a
silent no-op that leaves the state unchanged. -/
theorem gotoPage_clamped_navigation (st : ViewerState) (input : Option ℤ) :
    1 ≤ clamp (parseIntOr1 input) 1 (pageCountOr1 st.numPages) ∧
    clamp (parseIntOr1 input) 1 (pageCountOr1 st.numPages) ≤
      pageCountOr1 st.numPages ∧
    (st.refs (clamp (parseIntOr1 input) 1 (pageCountOr1 st.numPages)) = true →
      (gotoPage st input).currPage =
        clamp (parseIntOr1 input) 1 (pageCountOr1 st.numPages)) ∧
    (st.refs (clamp (parseIntOr1 input) 1 (pageCountOr1 st.numPages)) = false →
      gotoPage st input = st) := by
  obtain ⟨h1, h2⟩ :=
    clamp_self_le (parseIntOr1 input) 1 (pageCountOr1 st.numPages)
      (one_le_pageCountOr1 st.numPages)
  refine ⟨h1, h2, ?_, ?_⟩
  · intro h
    unfold gotoPage scrollToPage
    rw [h]
    rfl
  · intro h
    unfold gotoPage scrollToPage
    rw [h]
    rfl

theorem gotoPage_clamped_navigation_witness :
    (gotoPage ⟨some 10, 3, fun _ => true⟩ (some 99)).currPage =
      clamp (parseIntOr1 (some 99)) 1 (pageCountOr1 (some 10)) :=
  (gotoPage_clamped_navigation ⟨some 10, 3, fun _ => true⟩ (some 99)).2.2.1 rfl

theorem JVal.orElse_num_ne (q : ℚ) (h : q ≠ 0) (b : JVal) :
    JVal.orElse (JVal.num q) b = JVal.num q := by
  simp [JVal.orElse, JVal.truthy, h]

theorem JVal.orElse_num_zero (b : JVal) :
    JVal.orElse (JVal.num 0) b = b := by
  simp [JVal.orElse, JVal.truthy]

theorem JVal.div_num_num (a b : ℚ) (h : b ≠ 0) :
    JVal.div (JVal.num a) (JVal.num b) = JVal.num (a / b) := by
  simp [JVal.div, h]

theorem JVal.sub_num_num (a b : ℚ) :
    JVal.sub (JVal.num a) (JVal.num b) = JVal.num (a - b) := rfl

theorem JVal.jclamp_num_unit (x : ℚ) :
    JVal.jclamp (JVal.num x) (JVal.num 0) (JVal.num 1) =
      JVal.num (max 0 (min 1 x)) := rfl

theorem unit_clamp_bounds (x : ℚ) :
    0 ≤ max 0 (min 1 x) ∧ max 0 (min 1 x) ≤ 1 :=
  ⟨le_max_left 0 _, max_le zero_le_one (min_le_left 1 x)⟩

theorem clientToRelAxis_round_trip (p origin size clientSize : ℚ)
    (hp0 : 0 ≤ p) (hp1 : p ≤ 1) (hs : 0 < size) (hc : 0 < clientSize) :
    clientToRelAxis (origin + p * size) origin size clientSize = JVal.num p := by
  have hcne : clientSize ≠ 0 := ne_of_gt hc
  have hsne : size ≠ 0 := ne_of_gt hs
  have hquot : size / clientSize ≠ 0 := div_ne_zero hsne hcne
  unfold clientToRelAxis
  simp only [JVal.orElse_num_ne clientSize hcne,
    JVal.div_num_num size clientSize hcne,
    JVal.orElse_num_ne (size / clientSize) hquot, JVal.sub_num_num]
  have harg : origin + p * size - origin = p * size := by ring
  rw [harg, JVal.div_num_num _ _ hquot, JVal.div_num_num _ _ hcne,
    JVal.jclamp_num_unit]
  have hx : p * size / (size / clientSize) / clientSize = p := by
    field_simp
    ring
  rw [hx, min_eq_right hp1, max_eq_right hp0]

theorem clientToRelAxis_unit_range (client origin size clientSize : ℚ)
    (hs : 0 ≤ size) (hc : 0 ≤ clientSize)
    (hpos : 0 < clientSize ∨ 0 < size) :
    ∃ q : ℚ, clientToRelAxis client origin size clientSize = JVal.num q ∧
      0 ≤ q ∧ q ≤ 1 := by
  simp only [clientToRelAxis]
  by_cases hcz : clientSize = 0
  · have hspos : 0 < size := by
      rcases hpos with h | h
      · exact absurd hcz (ne_of_gt h)
      · exact h
    have hsne : size ≠ 0 := ne_of_gt hspos
    subst hcz
    simp only [JVal.orElse_num_zero, JVal.div_num_num size size hsne,
      div_self hsne, JVal.orElse_num_ne 1 one_ne_zero, JVal.sub_num_num,
      JVal.div_num_num (client - origin) 1 one_ne_zero,
      JVal.div_num_num ((client - origin) / 1) size hsne,
      JVal.jclamp_num_unit]
    exact ⟨_, rfl, unit_clamp_bounds _⟩
  · simp only [JVal.orElse_num_ne clientSize hcz,
      JVal.div_num_num size clientSize hcz, JVal.sub_num_num]
    by_cases hsz : size = 0
    · subst hsz
      simp only [zero_div, JVal.orElse_num_zero,
        JVal.div_num_num (client - origin) 1 one_ne_zero,
        JVal.div_num_num ((client - origin) / 1) clientSize hcz,
        JVal.jclamp_num_unit]
      exact ⟨_, rfl, unit_clamp_bounds _⟩
    · have hquot : size / clientSize ≠ 0 := div_ne_zero hsz hcz
      simp only [JVal.orElse_num_ne (size / clientSize) hquot,
        JVal.div_num_num (client - origin) (size / clientSize) hquot,
        JVal.div_num_num ((client - origin) / (size / clientSize)) clientSize hcz,
        JVal.jclamp_num_unit]
      exact ⟨_, rfl, unit_clamp_bounds _⟩

/-- Claim C2: for every normalized point `p` in the unit square and every
non-degenerate page rectangle (positive transformed extents and positive
layout extents), projecting `p` to client coordinates with `fromNormalized`
and mapping back with `clientToRel` returns exactly `p`, for every position
of the rect (`left`/`top`, i.e. the current translate) and every transformed
size (i.e. the current scale). -/
theorem normalized_round_trip (px py : ℚ) (r : PageRect)
    (hx0 : 0 ≤ px) (hx1 : px ≤ 1) (hy0 : 0 ≤ py) (hy1 : py ≤ 1)
    (hw : 0 < r.width) (hh : 0 < r.height)
    (hcw : 0 < r.clientW) (hch : 0 < r.clientH) :
    clientToRel (fromNormalized px py r).1 (fromNormalized px py r).2 r =
      (JVal.num px, JVal.num py) := by
  unfold clientToRel fromNormalized
  exact Prod.ext
    (clientToRelAxis_round_trip px r.left r.width r.clientW hx0 hx1 hw hcw)
    (clientToRelAxis_round_trip py r.top r.height r.clientH hy0 hy1 hh hch)

theorem normalized_round_trip_witness :
    clientToRel (fromNormalized (1 / 2) (1 / 3) ⟨10, 20, 100, 200, 80, 160⟩).1
        (fromNormalized (1 / 2) (1 / 3) ⟨10, 20, 100, 200, 80, 160⟩).2
        ⟨10, 20, 100, 200, 80, 160⟩ =
      (JVal.num (1 / 2), JVal.num (1 / 3)) :=
  normalized_round_trip (1 / 2) (1 / 3) ⟨10, 20, 100, 200, 80, 160⟩
    (by norm_num) (by norm_num) (by norm_num) (by norm_num)
    (by norm_num) (by norm_num) (by norm_num) (by norm_num)

/-- Claim C3, counterexample: with fully degenerate page geometry (bounding
rect and layout size both zero) and the pointer at the rect's origin,
`clientToRel` computes `0 / 0` and returns `NaN` on both axes instead of a
value clamped into `[0, 1]` — the degenerate case does not short-circuit. -/
theorem clientToRel_degenerate_nan :
    clientToRel 0 0 ⟨0, 0, 0, 0, 0, 0⟩ = (JVal.nan, JVal.nan) := by
  simp [clientToRel, clientToRelAxis, JVal.orElse, JVal.truthy, JVal.div,
    JVal.sub, JVal.jclamp, JVal.jmin, JVal.jmax]

/-- Claim C3 (amended): for every input screen point, `clientToRel` returns
a coordinate pair in `[0,1] × [0,1]` — clamped back into range when the raw
point is outside the page surface — provided each axis of the page geometry
is non-degenerate (its layout extent or its bounding-rect extent is
positive); when an axis has both extents zero the result on that axis can be
`NaN` (at points aligned with the rect origin). -/
theorem clientToRel_in_unit_range (clientX clientY : ℚ) (r : PageRect)
    (hw : 0 ≤ r.width) (hh : 0 ≤ r.height)
    (hcw : 0 ≤ r.clientW) (hch : 0 ≤ r.clientH)
    (hx : 0 < r.clientW ∨ 0 < r.width) (hy : 0 < r.clientH ∨ 0 < r.height) :
    ∃ qx qy : ℚ, clientToRel clientX clientY r = (JVal.num qx, JVal.num qy) ∧
      0 ≤ qx ∧ qx ≤ 1 ∧ 0 ≤ qy ∧ qy ≤ 1 := by
  obtain ⟨qx, hqx, hqx0, hqx1⟩ :=
    clientToRelAxis_unit_range clientX r.left r.width r.clientW hw hcw hx
  obtain ⟨qy, hqy, hqy0, hqy1⟩ :=
    clientToRelAxis_unit_range clientY r.top r.height r.clientH hh hch hy
  exact ⟨qx, qy, by rw [clientToRel, hqx, hqy], hqx0, hqx1, hqy0, hqy1⟩

theorem clientToRel_in_unit_range_witness :
    ∃ qx qy : ℚ,
      clientToRel 500 (-7) ⟨10, 20, 100, 200, 80, 160⟩ =
        (JVal.num qx, JVal.num qy) ∧
      0 ≤ qx ∧ qx ≤ 1 ∧ 0 ≤ qy ∧ qy ≤ 1 :=
  clientToRel_in_unit_range 500 (-7) ⟨10, 20, 100, 200, 80, 160⟩
    (by norm_num) (by norm_num) (by norm_num) (by norm_num)
    (Or.inl (by norm_num)) (Or.inl (by norm_num))

theorem pickFold_lt (l : List PageObservation) (b : ℚ × ℤ) (r : ℚ)
    (hb : b.1 < r) (hl : ∀ e ∈ l, e.frac < r) :
    (l.foldl pickStep b).1 < r := by
  induction l generalizing b with
  | nil => simpa using hb
  | cons a l ih =>
      rw [List.foldl_cons]
      apply ih
      · cases hpg : a.page with
        | none => simpa [pickStep, hpg] using hb
        | some p =>
            simp only [pickStep, hpg]
            by_cases hgt : a.frac > b.1
            · rw [if_pos hgt]
              exact hl a (List.mem_cons_self a l)
            · rw [if_neg hgt]
              exact hb
      · intro e he
        exact hl e (List.mem_cons_of_mem a he)

theorem pickFold_const (l : List PageObservation) (b : ℚ × ℤ)
    (hl : ∀ e ∈ l, e.frac ≤ b.1) :
    l.foldl pickStep b = b := by
  induction l with
  | nil => rfl
  | cons a l ih =>
      rw [List.foldl_cons]
      have hstep : pickStep b a = b := by
        cases hpg : a.page with
        | none => simp [pickStep, hpg]
        | some p =>
            simp only [pickStep, hpg]
            rw [if_neg (not_lt.mpr (hl a (List.mem_cons_self a l)))]
      rw [hstep]
      exact ih (fun e he => hl e (List.mem_cons_of_mem a he))

/-- Claim C6 (amended): on every observation batch (all entries carrying a
finite page number of at least 1), the reported current page becomes the
page of the earliest batch entry attaining the batch's greatest intersection
fraction, provided that greatest fraction is positive; a tie at the greatest
fraction is thus broken in favour of batch order, not in favour of the
previously-reported page, and when no entry has a positive fraction the
previous page is kept. -/
theorem current_page_strict_max_first :
    (∀ (cp : ℤ) (l1 l2 : List PageObservation) (e1 : PageObservation) (p : ℤ),
      e1.page = some p → 1 ≤ p → 0 < e1.frac →
      (∀ x ∈ l1, x.frac < e1.frac) → (∀ x ∈ l2, x.frac ≤ e1.frac) →
      pickCurrentPage cp (l1 ++ e1 :: l2) = p) ∧
    (∀ (cp : ℤ) (entries : List PageObservation),
      (∀ x ∈ entries, x.frac ≤ 0) → pickCurrentPage cp entries = cp) := by
  constructor
  · intro cp l1 l2 e1 p hpage hp hfrac hl1 hl2
    have hfold : (l1 ++ e1 :: l2).foldl pickStep ((0 : ℚ), cp) = (e1.frac, p) := by
      rw [List.foldl_append, List.foldl_cons]
      have hb1 : (l1.foldl pickStep ((0 : ℚ), cp)).1 < e1.frac :=
        pickFold_lt l1 ((0 : ℚ), cp) e1.frac hfrac hl1
      have hstep : pickStep (l1.foldl pickStep ((0 : ℚ), cp)) e1 = (e1.frac, p) := by
        simp only [pickStep, hpage]
        rw [if_pos hb1]
      rw [hstep]
      exact pickFold_const l2 (e1.frac, p) hl2
    unfold pickCurrentPage
    rw [hfold]
    by_cases hpc : p = cp
    · rw [if_neg (fun h => h.2 hpc)]
      exact hpc.symm
    · exact if_pos ⟨by omega, hpc⟩
  · intro cp entries hle
    have hfold : entries.foldl pickStep ((0 : ℚ), cp) = ((0 : ℚ), cp) :=
      pickFold_const entries ((0 : ℚ), cp) hle
    unfold pickCurrentPage
    rw [hfold]
    exact if_neg (fun h => h.2 rfl)

theorem current_page_strict_max_first_witness :
    pickCurrentPage 2 [⟨some 1, 1 / 4⟩, ⟨some 3, 1 / 2⟩, ⟨some 2, 1 / 2⟩] = 3 :=
  current_page_strict_max_first.1 2 [⟨some 1, 1 / 4⟩] [⟨some 2, 1 / 2⟩]
    ⟨some 3, 1 / 2⟩ 3 rfl (by norm_num) (by norm_num)
    (by intro x hx; rw [List.mem_singleton] at hx; rw [hx]; norm_num)
    (by intro x hx; rw [List.mem_singleton] at hx; rw [hx])

/-- Claim C6, counterexample: with the previously-reported page 2 and a
batch in which pages 1 and 2 tie at the greatest intersection fraction 1/2,
the callback reports page 1 (the first entry in batch order), not the
previously-reported page 2 as the claim's hysteresis clause requires. -/
theorem observer_tie_first_entry_wins :
    pickCurrentPage 2 [⟨some 1, 1 / 2⟩, ⟨some 2, 1 / 2⟩] = 1 ∧ (1 : ℤ) ≠ 2 := by
  constructor
  · norm_num [pickCurrentPage, pickStep, List.foldl]
  · decide

theorem momentumLoop_terminates (g : PanGeom) (sc dt cap : ℚ) :
    ∀ (n : ℕ) (elapsed : ℚ) (st : Inertia), 1 ≤ n →
      cap ≤ elapsed + (n : ℚ) * dt →
      ∃ t, momentumLoop g sc dt cap n elapsed st = some t := by
  intro n
  induction n with
  | zero => intro elapsed st h1 _; omega
  | succ n ih =>
      intro elapsed st _ hcap
      simp only [momentumLoop]
      by_cases hc :
          inertiaContinues (inertiaStep g sc dt st) (elapsed + dt) cap = true
      · rw [if_pos hc]
        have hlt : elapsed + dt < cap := by
          simp only [inertiaContinues, Bool.and_eq_true, decide_eq_true_eq] at hc
          exact hc.2
        rcases n with _ | m
        · exfalso
          push_cast at hcap
          linarith
        · apply ih (elapsed + dt) (inertiaStep g sc dt st) (by omega)
          push_cast at hcap ⊢
          linarith
      · rw [if_neg hc]
        exact ⟨elapsed + dt, rfl⟩

theorem momentumLoop_stop_time (g : PanGeom) (sc dt cap : ℚ) :
    ∀ (n : ℕ) (elapsed : ℚ) (st : Inertia) (t : ℚ), elapsed < cap →
      momentumLoop g sc dt cap n elapsed st = some t → t < cap + dt := by
  intro n
  induction n with
  | zero =>
      intro elapsed st t _ h
      simp [momentumLoop] at h
  | succ n ih =>
      intro elapsed st t he h
      simp only [momentumLoop] at h
      by_cases hc :
          inertiaContinues (inertiaStep g sc dt st) (elapsed + dt) cap = true
      · rw [if_pos hc] at h
        have hlt : elapsed + dt < cap := by
          simp only [inertiaContinues, Bool.and_eq_true, decide_eq_true_eq] at hc
          exact hc.2
        exact ih (elapsed + dt) (inertiaStep g sc dt st) t hlt h
      · rw [if_neg hc] at h
        injection h with h
        rw [← h]
        linarith

/-- Claim C10: for every initial velocity and translate, a momentum run
(the inertia loop of `PinchZoom`, driven by frames every `dt` ms) stops —
its per-frame decay loop ends when the speed drops to at most 0.005 px/ms
or the elapsed time reaches the 1800 ms hard cap, whichever comes first —
and the session is back to idle (`some t`) within one frame past the hard
cap: at a stop time `t < 1800 + dt`. -/
theorem momentum_reaches_idle_within_cap (g : PanGeom) (sc : ℚ) (st : Inertia)
    (dt : ℚ) (hdt : 0 < dt) :
    ∃ t, momentumLoop g sc dt 1800 (Nat.ceil ((1800 : ℚ) / dt) + 1) 0 st =
        some t ∧
      t < 1800 + dt := by
  have h2 : (1800 : ℚ) ≤ (Nat.ceil ((1800 : ℚ) / dt) : ℚ) * dt := by
    calc (1800 : ℚ) = 1800 / dt * dt := by field_simp
      _ ≤ (Nat.ceil ((1800 : ℚ) / dt) : ℚ) * dt :=
          mul_le_mul_of_nonneg_right (Nat.le_ceil _) hdt.le
  have hn : (1800 : ℚ) ≤ 0 + ((Nat.ceil ((1800 : ℚ) / dt) + 1 : ℕ) : ℚ) * dt := by
    push_cast
    nlinarith
  obtain ⟨t, ht⟩ :=
    momentumLoop_terminates g sc dt 1800 (Nat.ceil ((1800 : ℚ) / dt) + 1) 0 st
      (by omega) hn
  exact ⟨t, ht,
    momentumLoop_stop_time g sc dt 1800 (Nat.ceil ((1800 : ℚ) / dt) + 1) 0 st t
      (by norm_num) ht⟩

theorem momentum_reaches_idle_within_cap_witness :
    ∃ t, momentumLoop ⟨800, 600, 800, 1200⟩ 2 16 1800
        (Nat.ceil ((1800 : ℚ) / 16) + 1) 0 ⟨0, 0, 1 / 2, 0⟩ = some t ∧
      t < 1800 + 16 :=
  momentum_reaches_idle_within_cap ⟨800, 600, 800, 1200⟩ 2 ⟨0, 0, 1 / 2, 0⟩ 16
    (by norm_num)
